import Mathlib

/-!
Verification of the niimprint thermal-printer protocol client.

Shallow embedding of `src/niimprint/printer.py` (class `PrinterClient` and its
helpers).  Bytes are modelled as `Nat` (all concrete values stay below 256),
byte strings as `List Nat`.  The transport is modelled as a scripted queue of
read results (each `transport.read` pops one chunk, an exhausted queue yields
the empty read that a timed-out serial read produces), and every
`transport.write` is appended to a write log.  Python exceptions are modelled
by the `PRes` error monad; `time.sleep` and logging are no-ops and are
omitted.  Loops that the source runs unbounded (the `while` loop in `_recv`
and the `end_print` poll loop in `print_image`) are given explicit fuel and
return `none` when the fuel runs out, so that genuine non-termination of the
source is visible as `none`.
-/

namespace Niimprint

/-- Python exception kinds raised by the modelled code paths. -/
inductive PyErr where
  | valueError
  | notImplementedError
  | attributeError
  | indexError
  | assertionError
  | structError
  | unicodeDecodeError
  | encodingError
deriving Repr, DecidableEq

/-- Result of a Python call: a value or a raised exception. -/
inductive PRes (α : Type) where
  | ok (val : α)
  | err (e : PyErr)
deriving Repr, DecidableEq

/-- Modelled from the spec: the packet codec (`niimprint/packet.py`, class
`NiimbotPacket`) is imported by `printer.py` but its source is not included;
the frame layout is taken from spec sections 3 and 4.1.  A packet is a command
type byte and a payload of bytes. -/
structure NiimbotPacket where
  type : Nat
  data : List Nat
deriving Repr, DecidableEq

/-- Modelled from the spec: checksum = repeated XOR of the command type, the
payload length byte and every payload byte. -/
def checksum (t lenByte : Nat) (payload : List Nat) : Nat :=
  payload.foldl Nat.xor (Nat.xor t lenByte)

/-- Modelled from the spec: wire encoding
`0x55 0x55 | type | len | payload | checksum | 0xAA 0xAA`. -/
def to_bytes (p : NiimbotPacket) : List Nat :=
  0x55 :: 0x55 :: p.type :: p.data.length ::
    (p.data ++ [checksum p.type p.data.length p.data, 0xAA, 0xAA])

/-- Modelled from the spec: `encode` fails with `EncodingError` when the
payload exceeds 255 bytes (the length field is a single byte). -/
def encode (t : Nat) (payload : List Nat) : PRes (List Nat) :=
  if payload.length > 255 then .err .encodingError
  else .ok (to_bytes ⟨t, payload⟩)

/-- Result of decoding one frame from the head of a buffer. -/
inductive DecodeResult where
  | ok (p : NiimbotPacket) (consumed : Nat)
  | corrupt (consumed : Nat)
  | incomplete
deriving Repr, DecidableEq

/-- Modelled from the spec: `tryDecode` returns `incomplete` when fewer than 4
bytes are available or fewer than `buffer[3] + 7` bytes are available;
otherwise it parses the fixed frame and validates the checksum, a mismatch
being reported as a corrupt frame together with the computed frame length so
that the caller can still advance past it. -/
def tryDecode : List Nat → DecodeResult
  | a :: b :: t :: len :: rest =>
    if rest.length < len + 3 then .incomplete
    else
      match rest.drop len with
      | c :: e1 :: e2 :: _ =>
        if a = 0x55 ∧ b = 0x55 ∧ e1 = 0xAA ∧ e2 = 0xAA ∧
            c = checksum t len (rest.take len)
        then .ok ⟨t, rest.take len⟩ (len + 7)
        else .corrupt (len + 7)
      | _ => .incomplete
  | _ => .incomplete

/-- Byte access `buf[i]` at an index the source guarantees to be in range. -/
def byteAt (l : List Nat) (i : Nat) : Nat := l.getD i 0

/-- Fuelled body of the `while` loop of `PrinterClient._recv`: while more than
4 bytes are buffered, compute `pkt_len = buf[3] + 7`; when that many bytes are
present, decode them and drop them from the buffer, otherwise the source loops
forever (modelled as `none`).  Returns the decoded frames and the remaining
buffer. -/
def recvFuel : Nat → List Nat → Option (List DecodeResult × List Nat)
  | 0, _ => none
  | fuel + 1, buf =>
    if 4 < buf.length then
      let pktLen := byteAt buf 3 + 7
      if pktLen ≤ buf.length then
        match recvFuel fuel (buf.drop pktLen) with
        | some (ps, b) => some (tryDecode (buf.take pktLen) :: ps, b)
        | none => none
      else none
    else some ([], buf)

/-- The `_recv` frame-draining loop with enough fuel: every productive
iteration removes at least 7 bytes, so `buf.length + 1` iterations always
suffice (`recvFuel_mono` transfers results between fuel amounts). -/
def recvLoop (buf : List Nat) : Option (List DecodeResult × List Nat) :=
  recvFuel (buf.length + 1) buf

/-- State of a `PrinterClient` over a scripted transport: the queue of chunks
future `transport.read` calls will return, the inbound accumulator
`_packetbuf`, and the log of all `transport.write` payloads. -/
structure TState where
  chunks : List (List Nat)
  buf : List Nat
  log : List (List Nat)
deriving Repr, DecidableEq

/-- One `transport.read(1024)`: pop the next scripted chunk, or the empty
read a timeout produces when the script is exhausted. -/
def readChunk (s : TState) : List Nat × TState :=
  match s.chunks with
  | [] => ([], s)
  | c :: cs => (c, { s with chunks := cs })

/-- The packets `_recv` hands to its caller: per spec 4.1 a corrupt frame is a
reported, non-fatal anomaly that the caller logs and ignores, so only
successfully decoded packets flow into `_transceive`. -/
def okPackets : List DecodeResult → List NiimbotPacket
  | [] => []
  | .ok p _ :: rest => p :: okPackets rest
  | .corrupt _ :: rest => okPackets rest
  | .incomplete :: rest => okPackets rest

/-- The inner `for packet in self._recv()` loop of `_transceive`: type 219
raises `ValueError`, type 0 raises `NotImplementedError`, a frame of the
expected response type overwrites `resp` (so the last match wins), anything
else is skipped. -/
def processPackets (respcode : Nat) :
    Option NiimbotPacket → List NiimbotPacket → PRes (Option NiimbotPacket)
  | resp, [] => .ok resp
  | resp, p :: ps =>
    if p.type = 219 then .err .valueError
    else if p.type = 0 then .err .notImplementedError
    else if p.type = respcode then processPackets respcode (some p) ps
    else processPackets respcode resp ps

/-- The `for _ in range(6)` retry loop of `_transceive`: each round reads one
chunk, drains every complete frame from the accumulator, classifies the
packets, and returns the captured response at the end of a round that found
one; after the rounds are exhausted the (then necessarily `None`) response is
returned.  `none` models the source hanging inside `_recv`. -/
def transceiveRounds (respcode : Nat) :
    Nat → TState → Option (PRes (Option NiimbotPacket) × TState)
  | 0, s => some (.ok none, s)
  | n + 1, s =>
    let rc := readChunk s
    match recvLoop (rc.2.buf ++ rc.1) with
    | none => none
    | some (rs, buf') =>
      let s₂ : TState := { rc.2 with buf := buf' }
      match processPackets respcode none (okPackets rs) with
      | .err e => some (.err e, s₂)
      | .ok (some p) => some (.ok (some p), s₂)
      | .ok none => transceiveRounds respcode n s₂

/-- `PrinterClient._transceive`: write the encoded request, then run up to 6
receive rounds looking for a frame of type `respoffset + reqcode`. -/
def transceive (req : Nat) (data : List Nat) (off : Nat) (s : TState) :
    Option (PRes (Option NiimbotPacket) × TState) :=
  transceiveRounds (off + req) 6
    { s with log := s.log ++ [to_bytes ⟨req, data⟩] }

/-- Shared body of the boolean device operations: run `_transceive` and return
`bool(packet.data[0])`; a `None` response raises `AttributeError` at
`packet.data`, an empty payload raises `IndexError` at `data[0]`. -/
def stepBool (req : Nat) (data : List Nat) (off : Nat) (s : TState) :
    Option (PRes Bool × TState) :=
  match transceive req data off s with
  | none => none
  | some (.err e, s') => some (.err e, s')
  | some (.ok none, s') => some (.err .attributeError, s')
  | some (.ok (some p), s') =>
    match p.data with
    | [] => some (.err .indexError, s')
    | b :: _ => some (.ok (decide (b ≠ 0)), s')

/-- `struct.pack(">H", n)`: two big-endian bytes (callers stay below 2^16). -/
def pack16 (n : Nat) : List Nat := [n / 256 % 256, n % 256]

/-- `PrinterClient.set_label_density` (request 0x21, response offset 16) with
its `assert 1 <= n <= 5`. -/
def set_label_density (n : Nat) (s : TState) : Option (PRes Bool × TState) :=
  if 1 ≤ n ∧ n ≤ 5 then stepBool 33 [n] 16 s
  else some (.err .assertionError, s)

/-- `PrinterClient.set_label_type` (request 0x23, response offset 16) with its
`assert 1 <= n <= 3`. -/
def set_label_type (n : Nat) (s : TState) : Option (PRes Bool × TState) :=
  if 1 ≤ n ∧ n ≤ 3 then stepBool 35 [n] 16 s
  else some (.err .assertionError, s)

/-- `PrinterClient.start_print` (request 0x01, response offset 1). -/
def start_print (s : TState) : Option (PRes Bool × TState) :=
  stepBool 1 [1] 1 s

/-- `PrinterClient.end_print` (request 0xF3, response offset 1). -/
def end_print (s : TState) : Option (PRes Bool × TState) :=
  stepBool 243 [1] 1 s

/-- `PrinterClient.start_page_print` (request 0x03, response offset 1). -/
def start_page_print (s : TState) : Option (PRes Bool × TState) :=
  stepBool 3 [1] 1 s

/-- `PrinterClient.end_page_print` (request 0xE3, response offset 1). -/
def end_page_print (s : TState) : Option (PRes Bool × TState) :=
  stepBool 227 [1] 1 s

/-- `PrinterClient.set_dimension` (request 0x13, payload `pack(">HH", w, h)`,
response offset 1). -/
def set_dimension (w h : Nat) (s : TState) : Option (PRes Bool × TState) :=
  stepBool 19 (pack16 w ++ pack16 h) 1 s

/-- The raster image as `_encode_image` sees it after
`ImageOps.invert(image.convert("L")).convert("1")`: width, height and a pixel
accessor returning 0 for background and a nonzero value (255 in mode "1") for
ink.  The PIL inversion/binarisation itself is the image library's and is the
embedding's input. -/
structure RasterImage where
  width : Nat
  height : Nat
  pix : Nat → Nat → Nat

/-- The `line_data` list of `_encode_image`: the pixel values of row `y`. -/
def rowBits (img : RasterImage) (y : Nat) : List Nat :=
  (List.range img.width).map (fun x => img.pix x y)

/-- The `"0" if pix == 0 else "1"` digit string of `_encode_image`. -/
def to01 (bits : List Nat) : List Nat :=
  bits.map (fun b => if b = 0 then 0 else 1)

/-- Value of a binary digit list read most-significant-first. -/
def bitsVal (bs : List Nat) : Nat :=
  bs.foldl (fun a b => 2 * a + b) 0

/-- `int(line_data_str, 2)` of `_encode_image`. -/
def bitsToNat (bits : List Nat) : Nat := bitsVal (to01 bits)

/-- `n.to_bytes(k, "big")`: `k` big-endian bytes of `n`. -/
def natToBytesBE : Nat → Nat → List Nat
  | 0, _ => []
  | k + 1, v => natToBytesBE k (v / 256) ++ [v % 256]

/-- One row of `PrinterClient._encode_image`: an all-background row becomes a
`PRINT_EMPTY_ROW` (0x84) packet `pack(">HB", y, 1)`; any other row becomes a
`PRINT_BITMAP_ROW` (0x85) packet `pack(">H3BB", y, 0, 0, 0, 1)` followed by
`int(line_data_str, 2).to_bytes(ceil(width / 8), "big")`. -/
def encodeRow (img : RasterImage) (y : Nat) : NiimbotPacket :=
  let line := rowBits img y
  if line.all (· = 0) then
    ⟨132, pack16 y ++ [1]⟩
  else
    ⟨133, (pack16 y ++ [0, 0, 0, 1]) ++
      natToBytesBE ((img.width + 7) / 8) (bitsToNat line)⟩

/-- `PrinterClient._encode_image`: the row packets for `y = 0 .. height-1` in
order. -/
def encode_image (img : RasterImage) : List NiimbotPacket :=
  (List.range img.height).map (encodeRow img)

/-- `PrinterClient._send_batch`: concatenate the encodings of the batch into
one transport write; an empty batch writes nothing. -/
def send_batch (pkts : List NiimbotPacket) (log : List (List Nat)) :
    List (List Nat) :=
  if pkts = [] then log else log ++ [(pkts.map to_bytes).flatten]

/-- Loop body of `PrinterClient._send_image_batched`: append each packet to
the current batch, flush when the batch reaches `batchSize`, and flush the
final partial batch at the end. -/
def sendImageLoop (batchSize : Nat) :
    List NiimbotPacket → List NiimbotPacket → List (List Nat) →
      List (List Nat)
  | batch, [], log => send_batch batch log
  | batch, p :: ps, log =>
    if batchSize ≤ (batch ++ [p]).length then
      sendImageLoop batchSize [] ps (send_batch (batch ++ [p]) log)
    else sendImageLoop batchSize (batch ++ [p]) ps log

/-- `PrinterClient._send_image_batched`: stream the encoder's row packets in
batches of `batchSize`, returning the extended write log. -/
def send_image_batched (img : RasterImage) (batchSize : Nat)
    (log : List (List Nat)) : List (List Nat) :=
  sendImageLoop batchSize [] (encode_image img) log

/-- Spec-side description of "each row command's encoding written
individually in order": one write per row packet. -/
def writesPerRow (img : RasterImage) : List (List Nat) :=
  (encode_image img).map to_bytes

/-- Sequencing of one boolean device operation inside `print_image`: a raised
exception aborts the job, while the returned boolean is discarded (the source
never inspects it) and the job continues. -/
def andThen (r : Option (PRes Bool × TState))
    (k : TState → Option (PRes Unit × TState)) :
    Option (PRes Unit × TState) :=
  match r with
  | none => none
  | some (.err e, s) => some (.err e, s)
  | some (.ok _, s) => k s

/-- The `while not self.end_print(): time.sleep(0.1)` poll loop of
`print_image`, with fuel for the unbounded iteration. -/
def printImageLoop : Nat → TState → Option (PRes Unit × TState)
  | 0, _ => none
  | fuel + 1, s =>
    match end_print s with
    | none => none
    | some (.err e, s') => some (.err e, s')
    | some (.ok true, s') => some (.ok (), s')
    | some (.ok false, s') => printImageLoop fuel s'

/-- `PrinterClient.print_image`: density, label type, start print, start page
print, dimension (called with `(image.height, image.width)`), the batched row
stream, end page print, then poll `end_print` until it reports success. -/
def print_image (img : RasterImage) (density batchSize fuel : Nat)
    (s : TState) : Option (PRes Unit × TState) :=
  andThen (set_label_density density s) fun s₁ =>
  andThen (set_label_type 1 s₁) fun s₂ =>
  andThen (start_print s₂) fun s₃ =>
  andThen (start_page_print s₃) fun s₄ =>
  andThen (set_dimension img.height img.width s₄) fun s₅ =>
  andThen (end_page_print
      { s₅ with log := send_image_batched img batchSize s₅.log }) fun s₆ =>
  printImageLoop fuel s₆

/-- Decoded heartbeat fields. -/
structure HeartbeatInfo where
  closingstate : Option Nat
  powerlevel : Option Nat
  paperstate : Option Nat
  rfidreadstate : Option Nat
deriving Repr, DecidableEq

/-- The `match len(packet.data)` table of `PrinterClient.heartbeat`: the five
recognised payload lengths each select fixed byte offsets, any other length
leaves every field `None`. -/
def heartbeatFields (d : List Nat) : HeartbeatInfo :=
  if d.length = 20 then ⟨none, none, some (byteAt d 18), some (byteAt d 19)⟩
  else if d.length = 13 then
    ⟨some (byteAt d 9), some (byteAt d 10), some (byteAt d 11),
      some (byteAt d 12)⟩
  else if d.length = 19 then
    ⟨some (byteAt d 15), some (byteAt d 16), some (byteAt d 17),
      some (byteAt d 18)⟩
  else if d.length = 10 then
    ⟨some (byteAt d 8), some (byteAt d 9), none, some (byteAt d 8)⟩
  else if d.length = 9 then ⟨some (byteAt d 8), none, none, none⟩
  else ⟨none, none, none, none⟩

/-- `PrinterClient.heartbeat`: transceive `HEARTBEAT` (0xDC) and decode the
payload by its length (`packet.data` on a `None` response raises
`AttributeError`). -/
def heartbeat (s : TState) : Option (PRes HeartbeatInfo × TState) :=
  match transceive 220 [1] 1 s with
  | none => none
  | some (.err e, s') => some (.err e, s')
  | some (.ok none, s') => some (.err .attributeError, s')
  | some (.ok (some p), s') => some (.ok (heartbeatFields p.data), s')

/-- Continuation byte of a UTF-8 multi-byte sequence (0x80-0xBF). -/
def isCont (b : Nat) : Bool := 128 ≤ b && b ≤ 191

/-- Strict UTF-8 validity of a byte sequence, as enforced by Python's
`bytes.decode()` (default utf-8/strict): one-byte 0x00-0x7F; two-byte lead
0xC2-0xDF; three-byte leads 0xE0 (second byte 0xA0-0xBF), 0xE1-0xEC, 0xED
(second byte 0x80-0x9F, excluding surrogates) and 0xEE-0xEF; four-byte leads
0xF0 (second byte 0x90-0xBF), 0xF1-0xF3 and 0xF4 (second byte 0x80-0x8F);
anything else raises `UnicodeDecodeError`. -/
def utf8Valid : List Nat → Bool
  | [] => true
  | b :: rest =>
    if b ≤ 127 then utf8Valid rest
    else if 194 ≤ b && b ≤ 223 then
      match rest with
      | c1 :: rest2 => isCont c1 && utf8Valid rest2
      | [] => false
    else if b = 224 then
      match rest with
      | c1 :: c2 :: rest2 =>
        (160 ≤ c1 && c1 ≤ 191) && isCont c2 && utf8Valid rest2
      | _ => false
    else if (225 ≤ b && b ≤ 236) || (238 ≤ b && b ≤ 239) then
      match rest with
      | c1 :: c2 :: rest2 => isCont c1 && isCont c2 && utf8Valid rest2
      | _ => false
    else if b = 237 then
      match rest with
      | c1 :: c2 :: rest2 =>
        (128 ≤ c1 && c1 ≤ 159) && isCont c2 && utf8Valid rest2
      | _ => false
    else if b = 240 then
      match rest with
      | c1 :: c2 :: c3 :: rest2 =>
        (144 ≤ c1 && c1 ≤ 191) && isCont c2 && isCont c3 && utf8Valid rest2
      | _ => false
    else if 241 ≤ b && b ≤ 243 then
      match rest with
      | c1 :: c2 :: c3 :: rest2 =>
        isCont c1 && isCont c2 && isCont c3 && utf8Valid rest2
      | _ => false
    else if b = 244 then
      match rest with
      | c1 :: c2 :: c3 :: rest2 =>
        (128 ≤ c1 && c1 ≤ 143) && isCont c2 && isCont c3 && utf8Valid rest2
      | _ => false
    else false

/-- The RFID record of `PrinterClient.get_rfid`.  `uuid`, `barcode` and
`serial` keep their raw bytes (`.hex()` is a string rendering of exactly
those bytes, and `.decode()` validates UTF-8 — see `rfidParse` — and then
renders exactly those bytes). -/
structure RfidInfo where
  uuid : List Nat
  barcode : List Nat
  serial : List Nat
  used_len : Nat
  total_len : Nat
  rfType : Nat
deriving Repr, DecidableEq

/-- Payload parsing of `PrinterClient.get_rfid`: first byte 0 means no tag
(`None`); otherwise bytes 0-7 are the uuid, byte 8 starts a length-prefixed
barcode, followed by a length-prefixed serial, and `unpack(">HHB")` of the
remainder gives `total_len`, `used_len`, `type_` (a `struct.error` unless
exactly 5 bytes remain).  Out-of-range single-byte indexing raises
`IndexError` exactly where `data[idx]` does in the source, and each
`.decode()` raises `UnicodeDecodeError` on non-UTF-8 bytes at its program
point: the barcode's before the serial's length prefix is read, the serial's
before the trailing `unpack`. -/
def rfidParse (d : List Nat) : PRes (Option RfidInfo) :=
  if d.length < 1 then .err .indexError
  else if byteAt d 0 = 0 then .ok none
  else if d.length < 9 then .err .indexError
  else if utf8Valid ((d.drop 9).take (byteAt d 8)) = false
  then .err .unicodeDecodeError
  else if d.length < 9 + byteAt d 8 + 1 then .err .indexError
  else if utf8Valid ((d.drop (10 + byteAt d 8)).take (byteAt d (9 + byteAt d 8)))
      = false
  then .err .unicodeDecodeError
  else if (d.drop (10 + byteAt d 8 + byteAt d (9 + byteAt d 8))).length ≠ 5
  then .err .structError
  else
    .ok (some ⟨d.take 8, (d.drop 9).take (byteAt d 8),
      (d.drop (10 + byteAt d 8)).take (byteAt d (9 + byteAt d 8)),
      256 * byteAt (d.drop (10 + byteAt d 8 + byteAt d (9 + byteAt d 8))) 2
        + byteAt (d.drop (10 + byteAt d 8 + byteAt d (9 + byteAt d 8))) 3,
      256 * byteAt (d.drop (10 + byteAt d 8 + byteAt d (9 + byteAt d 8))) 0
        + byteAt (d.drop (10 + byteAt d 8 + byteAt d (9 + byteAt d 8))) 1,
      byteAt (d.drop (10 + byteAt d 8 + byteAt d (9 + byteAt d 8))) 4⟩)

/-- `PrinterClient.get_rfid`: transceive `GET_RFID` (0x1A) and parse the
payload. -/
def get_rfid (s : TState) : Option (PRes (Option RfidInfo) × TState) :=
  match transceive 26 [1] 1 s with
  | none => none
  | some (.err e, s') => some (.err e, s')
  | some (.ok none, s') => some (.err .attributeError, s')
  | some (.ok (some p), s') => some (rfidParse p.data, s')

/-- Last frame of the list whose type is `c` (the `resp`-overwriting fold of
`_transceive`'s inner loop). -/
def lastMatch (c : Nat) (ps : List NiimbotPacket) : Option NiimbotPacket :=
  ps.foldl (fun acc p => if p.type = c then some p else acc) none

/-- Spec-side description of the retry protocol: scan at most `fuel` reply
rounds, return the last frame of type `c` in the first round containing one,
`none` when the rounds run out. -/
def specFind (c : Nat) : Nat → List (List NiimbotPacket) → Option NiimbotPacket
  | 0, _ => none
  | _ + 1, [] => none
  | n + 1, r :: rs =>
    match lastMatch c r with
    | some p => some p
    | none => specFind c n rs

/-- Value of a bit list extended on the right with zeros to length 8. -/
def byteOfBits (bs : List Nat) : Nat :=
  bitsVal (bs ++ List.replicate (8 - bs.length) 0)

/-- Bit list chopped into `k` bytes of 8 bits, the final byte right-padded
with zeros. -/
def chunksOf8 : Nat → List Nat → List Nat
  | 0, _ => []
  | k + 1, l => if l = [] then [] else byteOfBits (l.take 8) :: chunksOf8 k (l.drop 8)

/-- Spec-side packing of a pixel row: bits MSB-first per byte, right-padded
with zeros to a whole number of bytes (spec section 4.4). -/
def specPackRow (bits : List Nat) : List Nat :=
  chunksOf8 ((bits.length + 7) / 8) (to01 bits)

/-- Per-round scripted reply encoding: the device answers each round with the
concatenated frames of that round's packet list. -/
def encRound (r : List NiimbotPacket) : List Nat :=
  (r.map to_bytes).flatten

theorem to_bytes_length (p : NiimbotPacket) :
    (to_bytes p).length = p.data.length + 7 := by
  simp [to_bytes]

theorem byteAt_to_bytes_3 (p : NiimbotPacket) :
    byteAt (to_bytes p) 3 = p.data.length := by
  simp [to_bytes, byteAt]

theorem tryDecode_to_bytes (p : NiimbotPacket) :
    tryDecode (to_bytes p) = .ok p (p.data.length + 7) := by
  obtain ⟨t, d⟩ := p
  show tryDecode
      (85 :: 85 :: t :: d.length :: (d ++ [checksum t d.length d, 170, 170]))
      = _
  rw [tryDecode, List.take_left' rfl, List.drop_left' rfl]
  simp

/-- C2: for every command type and payload of at most 255 bytes, decoding the
encoder's output returns the same packet with a consumed count of exactly
`len(p) + 7`, which is also the frame's wire length. -/
theorem packet_roundtrip (t : Nat) (p : List Nat) (hp : p.length ≤ 255) :
    encode t p = .ok (to_bytes ⟨t, p⟩) ∧
    tryDecode (to_bytes ⟨t, p⟩) = .ok ⟨t, p⟩ (p.length + 7) ∧
    (to_bytes ⟨t, p⟩).length = p.length + 7 := by
  refine ⟨?_, tryDecode_to_bytes ⟨t, p⟩, to_bytes_length ⟨t, p⟩⟩
  simp [encode]
  omega

theorem packet_roundtrip_witness :
    ([5, 6].length ≤ 255 ∧
      encode 2 [5, 6] = .ok (to_bytes ⟨2, [5, 6]⟩) ∧
      tryDecode (to_bytes ⟨2, [5, 6]⟩) = .ok ⟨2, [5, 6]⟩ ([5, 6].length + 7) ∧
      (to_bytes ⟨2, [5, 6]⟩).length = [5, 6].length + 7) :=
  ⟨by decide, packet_roundtrip 2 [5, 6] (by decide)⟩

theorem byteAt_append_left (l l' : List Nat) (i : Nat) (h : i < l.length) :
    byteAt (l ++ l') i = byteAt l i := by
  induction l generalizing i with
  | nil => simp at h
  | cons a t ih =>
    cases i with
    | zero => rfl
    | succ j => simpa [byteAt] using ih j (by simpa using h)

theorem byteAt_append_right (l l' : List Nat) (i : Nat) (h : l.length ≤ i) :
    byteAt (l ++ l') i = byteAt l' (i - l.length) := by
  induction l generalizing i with
  | nil => simp
  | cons a t ih =>
    cases i with
    | zero => simp at h
    | succ j =>
      have := ih j (by simpa using h)
      simpa [byteAt, Nat.succ_sub_one] using this

theorem byteAt_take (l : List Nat) (i k : Nat) (h : i < k) :
    byteAt (l.take k) i = byteAt l i := by
  induction l generalizing i k with
  | nil => simp
  | cons a t ih =>
    cases k with
    | zero => omega
    | succ k' =>
      cases i with
      | zero => rfl
      | succ j => simpa [byteAt] using ih j k' (by omega)

/-- Step lemma for the `_recv` loop: a buffer headed by one whole wire segment
(a block whose length matches its own length byte) decodes that segment and
continues on the remainder, using one unit of fuel. -/
theorem recvFuel_cons_seg (n : Nat) (seg rest : List Nat)
    (h7 : seg.length = byteAt seg 3 + 7) :
    recvFuel (n + 1) (seg ++ rest) =
      match recvFuel n rest with
      | some (ps, b) => some (tryDecode seg :: ps, b)
      | none => none := by
  have hseg3 : byteAt (seg ++ rest) 3 = byteAt seg 3 :=
    byteAt_append_left seg rest 3 (by omega)
  have hlen : (seg ++ rest).length = seg.length + rest.length := by simp
  rw [recvFuel]
  rw [if_pos (by omega)]
  have hple : byteAt (seg ++ rest) 3 + 7 ≤ (seg ++ rest).length := by
    rw [hseg3]; omega
  rw [if_pos hple]
  have htake : (seg ++ rest).take (byteAt (seg ++ rest) 3 + 7) = seg := by
    rw [hseg3]; exact List.take_left' h7
  have hdrop : (seg ++ rest).drop (byteAt (seg ++ rest) 3 + 7) = rest := by
    rw [hseg3]; exact List.drop_left' h7
  rw [htake, hdrop]

theorem recvFuel_mono {n m : Nat} {buf : List Nat}
    {r : List DecodeResult × List Nat}
    (h : recvFuel n buf = some r) (hnm : n ≤ m) : recvFuel m buf = some r := by
  induction n generalizing m buf r with
  | zero => simp [recvFuel] at h
  | succ n ih =>
    cases m with
    | zero => omega
    | succ m' =>
      rw [recvFuel] at h ⊢
      by_cases h4 : 4 < buf.length
      · rw [if_pos h4] at h ⊢
        by_cases hp : byteAt buf 3 + 7 ≤ buf.length
        · rw [if_pos hp] at h ⊢
          cases hr : recvFuel n (buf.drop (byteAt buf 3 + 7)) with
          | none => rw [hr] at h; exact absurd h (by simp)
          | some r' =>
            rw [hr] at h
            rw [ih hr (by omega)]
            exact h
        · rw [if_neg hp] at h; exact absurd h (by simp)
      · rw [if_neg h4] at h ⊢; exact h

theorem encRound_length_ge (ps : List NiimbotPacket) :
    ps.length ≤ (encRound ps).length := by
  induction ps with
  | nil => simp [encRound]
  | cons p t ih =>
    have : encRound (p :: t) = to_bytes p ++ encRound t := by
      simp [encRound]
    rw [this]
    have h1 := to_bytes_length p
    simp only [List.length_append, List.length_cons, h1]
    omega

theorem recvFuel_encRound (ps : List NiimbotPacket) :
    recvFuel (ps.length + 1) (encRound ps) =
      some (ps.map (fun p => .ok p (p.data.length + 7)), []) := by
  induction ps with
  | nil => rfl
  | cons p t ih =>
    have he : encRound (p :: t) = to_bytes p ++ encRound t := by
      simp [encRound]
    have h7 : (to_bytes p).length = byteAt (to_bytes p) 3 + 7 := by
      rw [byteAt_to_bytes_3, to_bytes_length]
    rw [he, List.length_cons]
    rw [recvFuel_cons_seg (t.length + 1) (to_bytes p) (encRound t) h7]
    rw [ih, tryDecode_to_bytes]
    rfl

theorem recvLoop_encRound (ps : List NiimbotPacket) :
    recvLoop (encRound ps) =
      some (ps.map (fun p => .ok p (p.data.length + 7)), []) := by
  have := encRound_length_ge ps
  exact recvFuel_mono (recvFuel_encRound ps) (by omega)

theorem recvLoop_single (p : NiimbotPacket) :
    recvLoop (to_bytes p) = some ([.ok p (p.data.length + 7)], []) := by
  have h : encRound [p] = to_bytes p := by simp [encRound]
  have := recvLoop_encRound [p]
  rw [h] at this
  simpa using this

theorem okPackets_map_ok (ps : List NiimbotPacket) :
    okPackets (ps.map (fun p => .ok p (p.data.length + 7))) = ps := by
  induction ps with
  | nil => rfl
  | cons p t ih => simp [okPackets, ih]

theorem tryDecode_corrupt (t : Nat) (payload : List Nat) (c : Nat)
    (hc : c ≠ checksum t payload.length payload) :
    tryDecode (85 :: 85 :: t :: payload.length :: (payload ++ [c, 170, 170]))
      = .corrupt (payload.length + 7) := by
  rw [tryDecode, List.take_left' rfl, List.drop_left' rfl]
  simp [hc]

/-- C4: a frame whose stored checksum disagrees with the XOR fold of its type,
length and payload bytes decodes to a corrupt-frame report that still carries
the computed frame length, and the receive loop advances the accumulator past
it by exactly that length, continuing with the rest of the buffer instead of
aborting. -/
theorem recv_corrupt_frame (t : Nat) (payload : List Nat) (c : Nat)
    (rest : List Nat) (outs : List DecodeResult) (b : List Nat)
    (hc : c ≠ checksum t payload.length payload)
    (hr : recvLoop rest = some (outs, b)) :
    tryDecode (85 :: 85 :: t :: payload.length :: (payload ++ [c, 170, 170]))
      = .corrupt (payload.length + 7) ∧
    recvLoop ((85 :: 85 :: t :: payload.length :: (payload ++ [c, 170, 170]))
        ++ rest) = some (.corrupt (payload.length + 7) :: outs, b) := by
  set seg := 85 :: 85 :: t :: payload.length :: (payload ++ [c, 170, 170])
    with hseg
  have hlen : seg.length = payload.length + 7 := by simp [hseg]
  have h3 : byteAt seg 3 = payload.length := by simp [hseg, byteAt]
  have h7 : seg.length = byteAt seg 3 + 7 := by rw [h3, hlen]
  have hstep := recvFuel_cons_seg (rest.length + 1) seg rest h7
  have hr' : recvFuel (rest.length + 1) rest = some (outs, b) := hr
  rw [hr'] at hstep
  refine ⟨tryDecode_corrupt t payload c hc, ?_⟩
  have hres : recvFuel (rest.length + 1 + 1) (seg ++ rest)
      = some (.corrupt (payload.length + 7) :: outs, b) := by
    rw [hstep, tryDecode_corrupt t payload c hc]
  exact recvFuel_mono hres
    (by simp only [List.length_append, hlen]; omega)

theorem recv_corrupt_frame_witness :
    ((7 : Nat) ≠ checksum 2 1 [1] ∧ recvLoop [9] = some ([], [9])) ∧
    (tryDecode (85 :: 85 :: 2 :: [1].length :: ([1] ++ [7, 170, 170]))
        = .corrupt ([1].length + 7) ∧
      recvLoop ((85 :: 85 :: 2 :: [1].length :: ([1] ++ [7, 170, 170])) ++ [9])
        = some (.corrupt ([1].length + 7) :: [], [9])) :=
  ⟨⟨by decide, by decide⟩,
    recv_corrupt_frame 2 [1] 7 [9] [] [9] (by decide) (by decide)⟩

theorem recvFuel_invariant (n : Nat) (buf : List Nat)
    (outs : List DecodeResult) (rest : List Nat)
    (h : recvFuel n buf = some (outs, rest)) :
    rest.length ≤ 4 ∧
    ∃ segs : List (List Nat), buf = segs.flatten ++ rest ∧
      outs = segs.map tryDecode ∧
      ∀ s ∈ segs, s.length = byteAt s 3 + 7 ∧ 7 ≤ s.length := by
  induction n generalizing buf outs rest with
  | zero => simp [recvFuel] at h
  | succ n ih =>
    rw [recvFuel] at h
    by_cases h4 : 4 < buf.length
    · rw [if_pos h4] at h
      by_cases hp : byteAt buf 3 + 7 ≤ buf.length
      · rw [if_pos hp] at h
        cases hrec : recvFuel n (buf.drop (byteAt buf 3 + 7)) with
        | none => rw [hrec] at h; exact absurd h (by simp)
        | some r' =>
          obtain ⟨ps, b⟩ := r'
          rw [hrec] at h
          simp only [Option.some.injEq, Prod.mk.injEq] at h
          obtain ⟨houts, hrest⟩ := h
          obtain ⟨hb4, segs, hsplit, hps, hprops⟩ := ih _ _ _ hrec
          subst houts hrest
          refine ⟨hb4, buf.take (byteAt buf 3 + 7) :: segs, ?_, ?_, ?_⟩
          · have : buf = buf.take (byteAt buf 3 + 7)
                ++ buf.drop (byteAt buf 3 + 7) :=
              (List.take_append_drop _ _).symm
            rw [List.flatten_cons, List.append_assoc, ← hsplit]
            exact this
          · simp [hps]
          · intro s hs
            rcases List.mem_cons.mp hs with hhead | htail
            · subst hhead
              have hlt : (buf.take (byteAt buf 3 + 7)).length
                  = byteAt buf 3 + 7 := by
                rw [List.length_take]; omega
              have h3 : byteAt (buf.take (byteAt buf 3 + 7)) 3 = byteAt buf 3 :=
                byteAt_take buf 3 _ (by omega)
              rw [hlt, h3]
              omega
            · exact hprops s htail
      · rw [if_neg hp] at h; exact absurd h (by simp)
    · rw [if_neg h4] at h
      simp only [Option.some.injEq, Prod.mk.injEq] at h
      obtain ⟨houts, hrest⟩ := h
      subst houts hrest
      exact ⟨by omega, [], by simp, by simp, by simp⟩

/-- C9: whenever the `_recv` loop returns, the accumulator holds no complete
frame (here the stronger fact that at most 4 bytes remain, which entails the
claimed disjunction); the consumed bytes split into whole wire segments taken
from the head of the buffer, each as long as its own length byte dictates, and
the returned results are exactly those segments decoded in arrival order. -/
theorem recv_invariant (bufin chunk : List Nat) (outs : List DecodeResult)
    (rest : List Nat) (h : recvLoop (bufin ++ chunk) = some (outs, rest)) :
    (rest.length ≤ 4 ∨ rest.length < byteAt rest 3 + 7) ∧
    ∃ segs : List (List Nat), bufin ++ chunk = segs.flatten ++ rest ∧
      outs = segs.map tryDecode ∧
      ∀ s ∈ segs, s.length = byteAt s 3 + 7 ∧ 7 ≤ s.length := by
  have hmain := recvFuel_invariant _ _ _ _ h
  exact ⟨Or.inl hmain.1, hmain.2⟩

theorem recv_invariant_witness :
    recvLoop ([] ++ (to_bytes ⟨2, [1]⟩ ++ [85, 85]))
        = some ([.ok ⟨2, [1]⟩ 8], [85, 85]) ∧
    (([85, 85] : List Nat).length ≤ 4 ∨
      ([85, 85] : List Nat).length < byteAt [85, 85] 3 + 7) ∧
    ∃ segs : List (List Nat),
      [] ++ (to_bytes ⟨2, [1]⟩ ++ [85, 85]) = segs.flatten ++ [85, 85] ∧
      [.ok ⟨2, [1]⟩ 8] = segs.map tryDecode ∧
      ∀ s ∈ segs, s.length = byteAt s 3 + 7 ∧ 7 ≤ s.length :=
  ⟨by decide,
    recv_invariant [] (to_bytes ⟨2, [1]⟩ ++ [85, 85])
      [.ok ⟨2, [1]⟩ 8] [85, 85] (by decide)⟩

theorem processPackets_no_reserved (c : Nat) (ps : List NiimbotPacket)
    (h : ∀ p ∈ ps, p.type ≠ 219 ∧ p.type ≠ 0) (acc : Option NiimbotPacket) :
    processPackets c acc ps =
      .ok (ps.foldl (fun a p => if p.type = c then some p else a) acc) := by
  induction ps generalizing acc with
  | nil => rfl
  | cons p t ih =>
    have hp := h p (by simp)
    have ht : ∀ q ∈ t, q.type ≠ 219 ∧ q.type ≠ 0 :=
      fun q hq => h q (by simp [hq])
    rw [processPackets, if_neg hp.1, if_neg hp.2]
    by_cases hm : p.type = c
    · rw [if_pos hm, ih ht]
      simp [hm]
    · rw [if_neg hm, ih ht]
      simp [hm]

theorem specFind_nil (c n : Nat) : specFind c n [] = none := by
  cases n <;> rfl

theorem transceiveRounds_script (c : Nat) (fuel : Nat)
    (rounds : List (List NiimbotPacket)) (log : List (List Nat))
    (h : ∀ p ∈ rounds.flatten, p.type ≠ 219 ∧ p.type ≠ 0) :
    ∃ s', transceiveRounds c fuel ⟨rounds.map encRound, [], log⟩ =
      some (.ok (specFind c fuel rounds), s') := by
  induction fuel generalizing rounds with
  | zero => exact ⟨_, rfl⟩
  | succ n ih =>
    cases rounds with
    | nil =>
      obtain ⟨s', hs'⟩ := ih [] (by simp)
      refine ⟨s', ?_⟩
      rw [transceiveRounds]
      have hrecv : recvLoop (([] : List Nat) ++ []) = some ([], []) := by decide
      rw [show readChunk ⟨([] : List (List NiimbotPacket)).map encRound,
        [], log⟩ = ([], ⟨[], [], log⟩) from rfl]
      rw [specFind_nil]
      rw [specFind_nil] at hs'
      simpa using hs'
    | cons r rs =>
      rw [transceiveRounds]
      have hrecv : recvLoop (([] : List Nat) ++ encRound r)
          = some (r.map (fun p => .ok p (p.data.length + 7)), []) := by
        rw [List.nil_append]; exact recvLoop_encRound r
      dsimp only [List.map_cons, readChunk]
      rw [hrecv]
      dsimp only
      rw [okPackets_map_ok]
      have hr : ∀ p ∈ r, p.type ≠ 219 ∧ p.type ≠ 0 :=
        fun p hp => h p (by simp [hp])
      rw [processPackets_no_reserved c r hr none]
      rw [show r.foldl (fun a q => if q.type = c then some q else a) none
        = lastMatch c r from rfl]
      cases hm : lastMatch c r with
      | some p =>
        rw [specFind, hm]
        exact ⟨_, rfl⟩
      | none =>
        obtain ⟨s', hs'⟩ := ih rs (fun p hp => h p (by simp [hp]))
        rw [specFind, hm]
        exact ⟨s', hs'⟩

/-- C3: over a scripted device that answers round `i` of the retry loop with
the concatenated frames of `rounds[i]`, and with no reserved (0xDB/0x00)
frame in the script, `_transceive` returns exactly what the specification
function computes: the last frame of type `respoffset + reqcode` in the first
round containing one, scanning at most 6 rounds, and `None` when no such
frame is ever seen; moreover `lastMatch` is really the last matching frame of
a round. -/
theorem transceive_matches_spec :
    (∀ (req : Nat) (data : List Nat) (off : Nat)
      (rounds : List (List NiimbotPacket)) (log : List (List Nat)),
      (∀ p ∈ rounds.flatten, p.type ≠ 219 ∧ p.type ≠ 0) →
      ∃ s', transceive req data off ⟨rounds.map encRound, [], log⟩ =
        some (.ok (specFind (off + req) 6 rounds), s')) ∧
    (∀ (c : Nat) (ps : List NiimbotPacket),
      lastMatch c ps = (ps.filter (fun p => p.type == c)).getLast?) := by
  constructor
  · intro req data off rounds log h
    exact transceiveRounds_script (off + req) 6 rounds
      (log ++ [to_bytes ⟨req, data⟩]) h
  · intro c ps
    induction ps using List.reverseRecOn with
    | nil => rfl
    | append_singleton t p ih =>
      rw [lastMatch, List.foldl_append]
      rw [List.filter_append]
      by_cases hm : p.type = c
      · simp [hm, List.getLast?_concat]
      · simp only [List.foldl_cons, List.foldl_nil, if_neg hm]
        rw [List.filter_cons]
        rw [show (p.type == c) = false by simp [hm]]
        simp only [if_false, Bool.false_eq_true, List.filter_nil,
          List.append_nil]
        exact ih

theorem transceive_matches_spec_witness :
    ((∀ p ∈ ([[⟨5, [1]⟩], [⟨7, [9]⟩, ⟨49, [1]⟩, ⟨49, [2]⟩]] :
        List (List NiimbotPacket)).flatten, p.type ≠ 219 ∧ p.type ≠ 0) ∧
      specFind (16 + 33) 6 [[⟨5, [1]⟩], [⟨7, [9]⟩, ⟨49, [1]⟩, ⟨49, [2]⟩]]
        = some ⟨49, [2]⟩) ∧
    ∃ s', transceive 33 [3] 16
        ⟨([[⟨5, [1]⟩], [⟨7, [9]⟩, ⟨49, [1]⟩, ⟨49, [2]⟩]] :
          List (List NiimbotPacket)).map encRound, [], []⟩ =
      some (.ok (specFind (16 + 33) 6
        [[⟨5, [1]⟩], [⟨7, [9]⟩, ⟨49, [1]⟩, ⟨49, [2]⟩]]), s') :=
  ⟨⟨by decide, by decide⟩,
    transceive_matches_spec.1 33 [3] 16
      [[⟨5, [1]⟩], [⟨7, [9]⟩, ⟨49, [1]⟩, ⟨49, [2]⟩]] [] (by decide)⟩

/-- Reserved inbound frame types: 0xDB (device error) and 0x00
(unsupported). -/
def isReserved (p : NiimbotPacket) : Bool :=
  p.type == 219 || p.type == 0

theorem processPackets_reserved (c : Nat) (ps : List NiimbotPacket)
    (p : NiimbotPacket) (hfind : ps.find? isReserved = some p)
    (acc : Option NiimbotPacket) :
    processPackets c acc ps =
      .err (if p.type = 219 then .valueError else .notImplementedError) := by
  induction ps generalizing acc with
  | nil => simp [List.find?] at hfind
  | cons q t ih =>
    rw [processPackets]
    by_cases h219 : q.type = 219
    · have : isReserved q = true := by simp [isReserved, h219]
      rw [List.find?_cons_of_pos _ this] at hfind
      obtain rfl : q = p := by simpa using hfind
      rw [if_pos h219, if_pos h219]
    · by_cases h0 : q.type = 0
      · have : isReserved q = true := by simp [isReserved, h0]
        rw [List.find?_cons_of_pos _ this] at hfind
        obtain rfl : q = p := by simpa using hfind
        rw [if_neg h219, if_pos h0, if_neg h219]
      · rw [List.find?_cons_of_neg _
          (by simp [isReserved, h219, h0])] at hfind
        rw [if_neg h219, if_neg h0]
        by_cases hm : q.type = c
        · rw [if_pos hm]; exact ih hfind _
        · rw [if_neg hm]; exact ih hfind _

/-- C5: when the first reply round contains a reserved frame (type 0xDB or
0x00), the `_transceive` call fails with the corresponding error —
`ValueError` (device rejected) for 0xDB, `NotImplementedError` (unsupported)
for 0x00, decided by the first reserved frame in iteration order — even if
the round also contains a frame of the expected response type. -/
theorem transceive_reserved_fails (req : Nat) (data : List Nat) (off : Nat)
    (r : List NiimbotPacket) (rs : List (List NiimbotPacket))
    (log : List (List Nat)) (p : NiimbotPacket)
    (hfind : r.find? isReserved = some p) :
    ∃ s', transceive req data off ⟨(r :: rs).map encRound, [], log⟩ =
      some (.err (if p.type = 219 then .valueError
        else .notImplementedError), s') := by
  rw [transceive, transceiveRounds]
  have hrecv : recvLoop (([] : List Nat) ++ encRound r)
      = some (r.map (fun p => .ok p (p.data.length + 7)), []) := by
    rw [List.nil_append]; exact recvLoop_encRound r
  dsimp only [List.map_cons, readChunk]
  rw [hrecv]
  dsimp only
  rw [okPackets_map_ok]
  rw [processPackets_reserved (off + req) r p hfind none]
  exact ⟨_, rfl⟩

theorem transceive_reserved_fails_witness :
    (([⟨49, [1]⟩, ⟨219, []⟩, ⟨49, [2]⟩] :
        List NiimbotPacket).find? isReserved = some ⟨219, []⟩) ∧
    ∃ s', transceive 33 [3] 16
        ⟨([[⟨49, [1]⟩, ⟨219, []⟩, ⟨49, [2]⟩]] :
          List (List NiimbotPacket)).map encRound, [], []⟩ =
      some (.err (if (219 : Nat) = 219 then .valueError
        else .notImplementedError), s') :=
  ⟨by decide,
    transceive_reserved_fails 33 [3] 16 [⟨49, [1]⟩, ⟨219, []⟩, ⟨49, [2]⟩]
      [] [] ⟨219, []⟩ (by decide)⟩

theorem sendImageLoop_flatten (b : Nat) (ps batch : List NiimbotPacket)
    (log : List (List Nat)) :
    (sendImageLoop b batch ps log).flatten =
      log.flatten ++ (batch.map to_bytes).flatten
        ++ (ps.map to_bytes).flatten := by
  induction ps generalizing batch log with
  | nil =>
    rw [sendImageLoop, send_batch]
    by_cases hb : batch = []
    · rw [if_pos hb, hb]; simp
    · rw [if_neg hb]; simp
  | cons p t ih =>
    rw [sendImageLoop]
    by_cases hfull : b ≤ (batch ++ [p]).length
    · rw [if_pos hfull, ih]
      rw [send_batch, if_neg (by simp)]
      simp
    · rw [if_neg hfull, ih]
      simp

/-- C7: for every image and batch size, streaming the encoder's row packets
in batches writes exactly the same overall byte sequence to the transport as
writing each row packet's encoding individually in order — batch boundaries
only regroup the bytes across writes. -/
theorem batching_preserves_bytes (img : RasterImage) (b : Nat)
    (_hb : 1 ≤ b) :
    (send_image_batched img b []).flatten = (writesPerRow img).flatten := by
  rw [send_image_batched, sendImageLoop_flatten, writesPerRow]
  simp [encode_image]

theorem batching_preserves_bytes_witness :
    (1 : Nat) ≤ 2 ∧
    (send_image_batched ⟨8, 3, fun x y => if x = y then 255 else 0⟩ 2
        []).flatten =
      (writesPerRow ⟨8, 3, fun x y => if x = y then 255 else 0⟩).flatten :=
  ⟨by decide,
    batching_preserves_bytes ⟨8, 3, fun x y => if x = y then 255 else 0⟩ 2
      (by decide)⟩

/-- C8: the heartbeat payload's field layout is selected solely by its total
length: the five recognised lengths 9, 10, 13, 19 and 20 each map to their
own fixed byte positions (length 9 populating only `closingstate`, length 20
only `paperstate` and `rfidreadstate`, lengths 13 and 19 reading all four
fields from distinct offsets, length 10 reading `closingstate`, `powerlevel`
and `rfidreadstate`), and every other length yields all fields unknown. -/
theorem heartbeat_layout :
    (∀ d : List Nat, d.length = 9 →
      heartbeatFields d = ⟨some (byteAt d 8), none, none, none⟩) ∧
    (∀ d : List Nat, d.length = 10 →
      heartbeatFields d =
        ⟨some (byteAt d 8), some (byteAt d 9), none, some (byteAt d 8)⟩) ∧
    (∀ d : List Nat, d.length = 13 →
      heartbeatFields d = ⟨some (byteAt d 9), some (byteAt d 10),
        some (byteAt d 11), some (byteAt d 12)⟩) ∧
    (∀ d : List Nat, d.length = 19 →
      heartbeatFields d = ⟨some (byteAt d 15), some (byteAt d 16),
        some (byteAt d 17), some (byteAt d 18)⟩) ∧
    (∀ d : List Nat, d.length = 20 →
      heartbeatFields d =
        ⟨none, none, some (byteAt d 18), some (byteAt d 19)⟩) ∧
    (∀ d : List Nat, d.length ≠ 9 → d.length ≠ 10 → d.length ≠ 13 →
      d.length ≠ 19 → d.length ≠ 20 →
      heartbeatFields d = ⟨none, none, none, none⟩) := by
  refine ⟨fun d h => by simp [heartbeatFields, h],
    fun d h => by simp [heartbeatFields, h],
    fun d h => by simp [heartbeatFields, h],
    fun d h => by simp [heartbeatFields, h],
    fun d h => by simp [heartbeatFields, h],
    fun d h9 h10 h13 h19 h20 => by
      simp [heartbeatFields, h9, h10, h13, h19, h20]⟩

theorem heartbeat_layout_witness :
    (([1, 2, 3, 4, 5, 6, 7, 8, 9] : List Nat).length = 9 ∧
      heartbeatFields [1, 2, 3, 4, 5, 6, 7, 8, 9] =
        ⟨some (byteAt [1, 2, 3, 4, 5, 6, 7, 8, 9] 8), none, none, none⟩) ∧
    ((List.range 20).length = 20 ∧
      heartbeatFields (List.range 20) = ⟨none, none,
        some (byteAt (List.range 20) 18), some (byteAt (List.range 20) 19)⟩) ∧
    (([1, 2, 3] : List Nat).length ≠ 9 ∧
      heartbeatFields [1, 2, 3] = ⟨none, none, none, none⟩) :=
  ⟨⟨by decide, heartbeat_layout.1 [1, 2, 3, 4, 5, 6, 7, 8, 9] (by decide)⟩,
    ⟨by decide, heartbeat_layout.2.2.2.2.1 (List.range 20) (by decide)⟩,
    ⟨by decide, heartbeat_layout.2.2.2.2.2 [1, 2, 3] (by decide) (by decide)
      (by decide) (by decide) (by decide)⟩⟩

/-- C10 counterexample: the payload `[1]` has a nonzero first byte, yet
`get_rfid`'s parser raises `IndexError` (at `data[8]`) instead of returning a
record, so the claim's unconditional "for every payload whose first byte is
nonzero, it returns a record" is false. -/
theorem rfid_short_payload_raises :
    rfidParse [1] = .err .indexError := by decide

/-- C10 (amended): a payload whose first byte is 0 parses to `None`; a
well-formed nonzero payload — 8 uuid bytes, a length-prefixed barcode, a
length-prefixed serial, both decodable as UTF-8, and exactly 5 trailing
bytes — parses to the record whose uuid is payload bytes 0-7, whose barcode
and serial are the two consecutive length-prefixed strings starting at byte
8, and whose `total_len`, `used_len` and `type` are the trailing big-endian
16-bit, 16-bit and 8-bit values; a malformed payload raises instead
(`IndexError` at an out-of-range length-prefix byte, `UnicodeDecodeError` on
non-UTF-8 barcode or serial bytes, `struct.error` unless exactly 5 bytes
remain), as the concrete 0xFF-barcode payload illustrates. -/
theorem rfid_parse_amended :
    (∀ d : List Nat, 1 ≤ d.length → byteAt d 0 = 0 →
      rfidParse d = .ok none) ∧
    (∀ (u bc sr : List Nat) (t1 t2 l1 l2 ty : Nat),
      u.length = 8 → byteAt u 0 ≠ 0 → bc.length ≤ 255 → sr.length ≤ 255 →
      utf8Valid bc = true → utf8Valid sr = true →
      rfidParse (u ++ bc.length :: (bc ++ sr.length :: (sr
          ++ [t1, t2, l1, l2, ty]))) =
        .ok (some ⟨u, bc, sr, 256 * l1 + l2, 256 * t1 + t2, ty⟩)) ∧
    rfidParse [9, 2, 3, 4, 5, 6, 7, 8, 1, 255, 1, 67, 1, 44, 0, 10, 3]
      = .err .unicodeDecodeError := by
  refine ⟨?_, ?_, by decide⟩
  · intro d h1 h0
    rw [rfidParse, if_neg (by omega), if_pos h0]
  · intro u bc sr t1 t2 l1 l2 ty hu h0 hbc hsr hbcv hsrv
    set d := u ++ bc.length :: (bc ++ sr.length :: (sr
      ++ [t1, t2, l1, l2, ty])) with hd
    have hdlen : d.length = bc.length + sr.length + 15 := by
      simp [hd, hu]; omega
    have hd0 : byteAt d 0 = byteAt u 0 :=
      byteAt_append_left u _ 0 (by omega)
    have hsplit8 : d = (u ++ [bc.length]) ++ (bc ++ sr.length :: (sr
        ++ [t1, t2, l1, l2, ty])) := by
      simp [hd]
    have hd8 : byteAt d 8 = bc.length := by
      rw [hd, byteAt_append_right u _ 8 (by omega), hu]
      simp [byteAt]
    have hdrop9 : d.drop 9 = bc ++ sr.length :: (sr
        ++ [t1, t2, l1, l2, ty]) := by
      rw [hsplit8]
      exact List.drop_left' (by simp [hu])
    have hsplitbc : d = ((u ++ [bc.length]) ++ (bc ++ [sr.length]))
        ++ (sr ++ [t1, t2, l1, l2, ty]) := by
      simp [hd]
    have hdbl : byteAt d (9 + bc.length) = sr.length := by
      rw [hsplit8]
      rw [byteAt_append_right _ _ _ (by simp [hu])]
      rw [show 9 + bc.length - (u ++ [bc.length]).length = bc.length
        by simp [hu]]
      rw [byteAt_append_right bc _ bc.length (by omega)]
      simp [byteAt]
    have hdropbc : d.drop (10 + bc.length) = sr ++ [t1, t2, l1, l2, ty] := by
      rw [hsplitbc]
      exact List.drop_left' (by simp [hu]; omega)
    have hdropsr : d.drop (10 + bc.length + sr.length)
        = [t1, t2, l1, l2, ty] := by
      rw [show d = (((u ++ [bc.length]) ++ (bc ++ [sr.length])) ++ sr)
        ++ [t1, t2, l1, l2, ty] by simp [hd]]
      exact List.drop_left' (by simp [hu]; omega)
    rw [rfidParse]
    rw [if_neg (by omega)]
    rw [hd0, if_neg h0]
    rw [if_neg (by omega)]
    rw [hd8, hdbl]
    rw [hdrop9, List.take_left' rfl]
    rw [if_neg (by simp [hbcv])]
    rw [if_neg (by omega)]
    rw [hdropbc]
    rw [show (sr ++ [t1, t2, l1, l2, ty]).take sr.length = sr from
      List.take_left' rfl]
    rw [if_neg (by simp [hsrv])]
    rw [hdropsr]
    rw [if_neg (by simp)]
    rw [show d.take 8 = u from by rw [hd]; exact List.take_left' hu]
    rfl

theorem rfid_parse_amended_witness :
    ((1 : Nat) ≤ ([0, 7] : List Nat).length ∧ byteAt [0, 7] 0 = 0 ∧
      rfidParse [0, 7] = .ok none) ∧
    (([9, 2, 3, 4, 5, 6, 7, 8] : List Nat).length = 8 ∧
      byteAt [9, 2, 3, 4, 5, 6, 7, 8] 0 ≠ 0 ∧
      utf8Valid [65, 66] = true ∧ utf8Valid [67] = true ∧
      rfidParse ([9, 2, 3, 4, 5, 6, 7, 8] ++ ([65, 66] : List Nat).length ::
          ([65, 66] ++ ([67] : List Nat).length :: ([67]
            ++ [1, 44, 0, 10, 3]))) =
        .ok (some ⟨[9, 2, 3, 4, 5, 6, 7, 8], [65, 66], [67],
          256 * 0 + 10, 256 * 1 + 44, 3⟩)) :=
  ⟨⟨by decide, by decide,
      rfid_parse_amended.1 [0, 7] (by decide) (by decide)⟩,
    ⟨by decide, by decide, by decide, by decide,
      rfid_parse_amended.2.1 [9, 2, 3, 4, 5, 6, 7, 8] [65, 66] [67]
        1 44 0 10 3 (by decide) (by decide) (by decide) (by decide)
        (by decide) (by decide)⟩⟩

theorem bitsVal_foldl (bs : List Nat) (i : Nat) :
    bs.foldl (fun a b => 2 * a + b) i = i * 2 ^ bs.length + bitsVal bs := by
  induction bs generalizing i with
  | nil => simp [bitsVal]
  | cons x t ih =>
    rw [List.foldl_cons, ih]
    rw [show bitsVal (x :: t) = (x :: t).foldl (fun a b => 2 * a + b) 0
      from rfl]
    rw [List.foldl_cons, ih]
    simp [List.length_cons, Nat.pow_succ]
    ring

theorem bitsVal_append (a b : List Nat) :
    bitsVal (a ++ b) = bitsVal a * 2 ^ b.length + bitsVal b := by
  rw [bitsVal, List.foldl_append]
  exact bitsVal_foldl b (bitsVal a)

theorem bitsVal_lt (bs : List Nat) (hb : ∀ x ∈ bs, x ≤ 1) :
    bitsVal bs < 2 ^ bs.length := by
  induction bs with
  | nil => simp [bitsVal]
  | cons x t ih =>
    have hx : x ≤ 1 := hb x (by simp)
    have ht : ∀ y ∈ t, y ≤ 1 := fun y hy => hb y (by simp [hy])
    have h1 : bitsVal (x :: t) = x * 2 ^ t.length + bitsVal t := by
      rw [show (x :: t) = [x] ++ t from rfl, bitsVal_append]
      simp [bitsVal]
    rw [h1, List.length_cons, Nat.pow_succ]
    have := ih ht
    nlinarith

theorem natToBytesBE_high (k A B : Nat) (hA : A < 256) (hB : B < 256 ^ k) :
    natToBytesBE (k + 1) (A * 256 ^ k + B) = A :: natToBytesBE k B := by
  induction k generalizing B with
  | zero =>
    have hB0 : B = 0 := by simpa using hB
    subst hB0
    simp [natToBytesBE, Nat.mod_eq_of_lt hA, Nat.div_eq_of_lt hA]
  | succ k ih =>
    rw [natToBytesBE]
    have hdiv : (A * 256 ^ (k + 1) + B) / 256 = A * 256 ^ k + B / 256 := by
      rw [show A * 256 ^ (k + 1) + B = 256 * (A * 256 ^ k) + B by ring]
      rw [Nat.mul_add_div (by norm_num)]
    have hmod : (A * 256 ^ (k + 1) + B) % 256 = B % 256 := by
      rw [show A * 256 ^ (k + 1) + B = 256 * (A * 256 ^ k) + B by ring]
      exact Nat.mul_add_mod 256 _ B
    have hBdiv : B / 256 < 256 ^ k := by
      rw [Nat.div_lt_iff_lt_mul (by norm_num)]
      calc B < 256 ^ (k + 1) := hB
        _ = 256 ^ k * 256 := by rw [Nat.pow_succ]
    rw [hdiv, hmod, ih (B / 256) hBdiv]
    rw [show natToBytesBE (k + 1) B
      = natToBytesBE k (B / 256) ++ [B % 256] from rfl]
    rfl

theorem natToBytesBE_chunks (k : Nat) (bs : List Nat)
    (hlen : bs.length = 8 * k) (hb : ∀ x ∈ bs, x ≤ 1) :
    natToBytesBE k (bitsVal bs) = chunksOf8 k bs := by
  induction k generalizing bs with
  | zero =>
    have : bs = [] := List.length_eq_zero.mp (by omega)
    subst this
    rfl
  | succ k ih =>
    have hne : bs ≠ [] := by
      intro h
      rw [h] at hlen
      simp at hlen
    have htake : (bs.take 8).length = 8 := by
      rw [List.length_take]
      omega
    have hdrop : (bs.drop 8).length = 8 * k := by
      rw [List.length_drop]
      omega
    have hsplit : bs = bs.take 8 ++ bs.drop 8 :=
      (List.take_append_drop 8 bs).symm
    have hbtake : ∀ x ∈ bs.take 8, x ≤ 1 :=
      fun x hx => hb x (List.mem_of_mem_take hx)
    have hbdrop : ∀ x ∈ bs.drop 8, x ≤ 1 :=
      fun x hx => hb x (List.mem_of_mem_drop hx)
    have hA : bitsVal (bs.take 8) < 256 := by
      have := bitsVal_lt (bs.take 8) hbtake
      rw [htake] at this
      exact this
    have hBlt : bitsVal (bs.drop 8) < 256 ^ k := by
      have := bitsVal_lt (bs.drop 8) hbdrop
      rw [hdrop] at this
      calc bitsVal (bs.drop 8) < 2 ^ (8 * k) := this
        _ = 256 ^ k := by rw [Nat.pow_mul]
    have hval : bitsVal bs
        = bitsVal (bs.take 8) * 256 ^ k + bitsVal (bs.drop 8) := by
      conv_lhs => rw [hsplit]
      rw [bitsVal_append, hdrop]
      rw [Nat.pow_mul]
    rw [hval, natToBytesBE_high k _ _ hA hBlt]
    rw [chunksOf8, if_neg hne]
    rw [ih (bs.drop 8) hdrop hbdrop]
    rw [byteOfBits, htake]
    simp

theorem to01_le_one (bits : List Nat) : ∀ x ∈ to01 bits, x ≤ 1 := by
  intro x hx
  simp only [to01, List.mem_map] at hx
  obtain ⟨b, _, hb⟩ := hx
  by_cases h : b = 0 <;> simp [h] at hb <;> omega

theorem rowBits_length (img : RasterImage) (y : Nat) :
    (rowBits img y).length = img.width := by
  simp [rowBits]

/-- C6 counterexample: for a width-4 row with pixel pattern 1,0,1,0 the code
packs the bit string as the big-endian bytes of its integer value, producing
the byte 0x0A, whereas MSB-first packing right-padded to a whole byte would
produce 0xA0 — so the claimed "right-padded to whole bytes" packing is false
for widths that are not a multiple of 8. -/
theorem encode_row_not_right_padded :
    encodeRow ⟨4, 1, fun x _ => if x % 2 = 0 then 255 else 0⟩ 0
      = ⟨133, [0, 0, 0, 0, 0, 1, 10]⟩ ∧
    specPackRow (rowBits ⟨4, 1, fun x _ => if x % 2 = 0 then 255 else 0⟩ 0)
      = [160] ∧
    natToBytesBE ((4 + 7) / 8)
        (bitsToNat (rowBits ⟨4, 1, fun x _ => if x % 2 = 0 then 255 else 0⟩ 0))
      ≠ specPackRow
        (rowBits ⟨4, 1, fun x _ => if x % 2 = 0 then 255 else 0⟩ 0) := by
  refine ⟨?_, by decide, by decide⟩
  show encodeRow ⟨4, 1, fun x _ => if x % 2 = 0 then 255 else 0⟩ 0 = _
  decide

/-- C6 (amended): an all-background row yields an empty-row command whose
payload is the 2-byte big-endian row index followed by repeat count 1; any
other row yields a bitmap-row command whose payload is the row index, three
zero bytes, repeat count 1, and the row's bits packed as the big-endian bytes
of the bit-string value left-padded to `ceil(width/8)` bytes — which for
widths that are a multiple of 8 coincides with MSB-first whole-byte
packing. -/
theorem encode_row_amended :
    (∀ (img : RasterImage) (y : Nat),
      (rowBits img y).all (· = 0) = true →
      encodeRow img y = ⟨132, pack16 y ++ [1]⟩) ∧
    (∀ (img : RasterImage) (y : Nat),
      (rowBits img y).all (· = 0) = false →
      encodeRow img y = ⟨133, (pack16 y ++ [0, 0, 0, 1]) ++
        natToBytesBE ((img.width + 7) / 8) (bitsToNat (rowBits img y))⟩) ∧
    (∀ (img : RasterImage) (y : Nat), 8 ∣ img.width →
      natToBytesBE ((img.width + 7) / 8) (bitsToNat (rowBits img y))
        = specPackRow (rowBits img y)) := by
  refine ⟨fun img y h => by rw [encodeRow, if_pos h],
    fun img y h => by rw [encodeRow, if_neg (by simp [h])], ?_⟩
  intro img y hdvd
  obtain ⟨k, hk⟩ := hdvd
  have hlen : (to01 (rowBits img y)).length = 8 * k := by
    simp [to01, rowBits, hk]
  have hceil : (img.width + 7) / 8 = k := by omega
  rw [hceil, bitsToNat]
  rw [natToBytesBE_chunks k _ hlen (to01_le_one _)]
  rw [specPackRow]
  rw [show (rowBits img y).length = 8 * k by rw [rowBits_length, hk]]
  rw [show (8 * k + 7) / 8 = k by omega]

theorem encode_row_amended_witness :
    ((rowBits ⟨96, 1, fun _ _ => 0⟩ 0).all (· = 0) = true ∧
      encodeRow ⟨96, 1, fun _ _ => 0⟩ 0 = ⟨132, pack16 0 ++ [1]⟩) ∧
    ((rowBits ⟨8, 1, fun x _ => if x % 2 = 0 then 255 else 0⟩ 0).all (· = 0)
        = false ∧
      encodeRow ⟨8, 1, fun x _ => if x % 2 = 0 then 255 else 0⟩ 0
        = ⟨133, (pack16 0 ++ [0, 0, 0, 1]) ++ natToBytesBE ((8 + 7) / 8)
            (bitsToNat (rowBits ⟨8, 1,
              fun x _ => if x % 2 = 0 then 255 else 0⟩ 0))⟩ ∧
      natToBytesBE ((8 + 7) / 8) (bitsToNat (rowBits ⟨8, 1,
          fun x _ => if x % 2 = 0 then 255 else 0⟩ 0)) = [170]) ∧
    ((8 : Nat) ∣ (8 : Nat) ∧
      natToBytesBE ((8 + 7) / 8) (bitsToNat (rowBits ⟨8, 1,
          fun x _ => if x % 2 = 0 then 255 else 0⟩ 0))
        = specPackRow (rowBits ⟨8, 1,
            fun x _ => if x % 2 = 0 then 255 else 0⟩ 0)) :=
  ⟨⟨by decide, encode_row_amended.1 ⟨96, 1, fun _ _ => 0⟩ 0 (by decide)⟩,
    ⟨by decide,
      encode_row_amended.2.1 ⟨8, 1, fun x _ => if x % 2 = 0 then 255 else 0⟩ 0
        (by decide), by decide⟩,
    ⟨⟨1, by norm_num⟩,
      encode_row_amended.2.2 ⟨8, 1, fun x _ => if x % 2 = 0 then 255 else 0⟩ 0
        ⟨1, by norm_num⟩⟩⟩

/-- One boolean device operation against a script whose next chunk is a
single well-formed response frame of the expected type: the operation
consumes that chunk, logs its request, and returns `bool(payload[0])`. -/
theorem stepBool_first_round (req off rc b : Nat) (data t : List Nat)
    (cs : List (List Nat)) (log : List (List Nat))
    (hrc : off + req = rc) (hne : rc ≠ 219) (hne0 : rc ≠ 0) :
    stepBool req data off ⟨to_bytes ⟨rc, b :: t⟩ :: cs, [], log⟩ =
      some (.ok (decide (b ≠ 0)),
        ⟨cs, [], log ++ [to_bytes ⟨req, data⟩]⟩) := by
  have htr : transceive req data off ⟨to_bytes ⟨rc, b :: t⟩ :: cs, [], log⟩
      = some (.ok (some ⟨rc, b :: t⟩),
        ⟨cs, [], log ++ [to_bytes ⟨req, data⟩]⟩) := by
    rw [transceive, transceiveRounds]
    dsimp only [readChunk]
    have hrecv : recvLoop (([] : List Nat) ++ to_bytes ⟨rc, b :: t⟩)
        = some ([.ok ⟨rc, b :: t⟩ ((b :: t).length + 7)], []) := by
      rw [List.nil_append]
      exact recvLoop_single ⟨rc, b :: t⟩
    rw [hrecv]
    dsimp only [okPackets]
    rw [hrc, processPackets, if_neg (by simpa using hne),
      if_neg (by simpa using hne0), if_pos rfl, processPackets]
  rw [stepBool, htr]

/-- The 2x2 all-ink test image (every pixel 255 after inversion). -/
def imgC1 : RasterImage := ⟨2, 2, fun _ _ => 255⟩

/-- Scripted device for a full `print_image` run: one response frame per
protocol step, the six setup/end-page steps answering with an arbitrary
boolean byte and the final `end_print` answering success. -/
def scenC1 (b1 b2 b3 b4 b5 b6 : Nat) : TState :=
  ⟨[to_bytes ⟨49, [b1]⟩, to_bytes ⟨51, [b2]⟩, to_bytes ⟨2, [b3]⟩,
    to_bytes ⟨4, [b4]⟩, to_bytes ⟨20, [b5]⟩, to_bytes ⟨228, [b6]⟩,
    to_bytes ⟨244, [1]⟩], [], []⟩

/-- The full expected write log of `print_image` on `imgC1`: the five setup
requests, one batch holding both bitmap-row frames, then the end-page and
end-print requests. -/
def logC1 : List (List Nat) :=
  [to_bytes ⟨33, [3]⟩, to_bytes ⟨35, [1]⟩, to_bytes ⟨1, [1]⟩,
    to_bytes ⟨3, [1]⟩, to_bytes ⟨19, [0, 2, 0, 2]⟩,
    to_bytes ⟨133, [0, 0, 0, 0, 0, 1, 3]⟩
      ++ to_bytes ⟨133, [0, 1, 0, 0, 0, 1, 3]⟩,
    to_bytes ⟨227, [1]⟩, to_bytes ⟨243, [1]⟩]

/-- C1 counterexample: with a device whose `set_label_density` response
carries the boolean-failure payload `[0]` (the step returns `False`) while
every later step succeeds, `print_image` still runs to completion: it
executes every remaining step, streams both bitmap rows, and returns
successfully — so a false boolean result from a setup step is not fatal and
does not stop the remaining steps. -/
theorem print_image_false_boolean_not_fatal :
    set_label_density 3 (scenC1 0 1 1 1 1 1) =
      some (.ok false,
        ⟨[to_bytes ⟨51, [1]⟩, to_bytes ⟨2, [1]⟩, to_bytes ⟨4, [1]⟩,
          to_bytes ⟨20, [1]⟩, to_bytes ⟨228, [1]⟩, to_bytes ⟨244, [1]⟩],
          [], [to_bytes ⟨33, [3]⟩]⟩) ∧
    print_image imgC1 3 10 1 (scenC1 0 1 1 1 1 1)
      = some (.ok (), ⟨[], [], logC1⟩) := by
  constructor
  · decide
  · decide

/-- C1 (amended): the protocol setup steps of `print_image` are transceive
calls that must produce a response frame — a missing response aborts the job
with an exception before any later step runs — but their boolean-success
payloads are computed and discarded: whatever boolean byte each
setup/end-page step returns, the job executes all remaining steps including
the row stream and completes; only `end_print`'s boolean is consulted, in the
final polling loop. -/
theorem print_image_ignores_setup_booleans :
    (∀ b1 b2 b3 b4 b5 b6 : Nat,
      print_image imgC1 3 10 1 (scenC1 b1 b2 b3 b4 b5 b6)
        = some (.ok (), ⟨[], [], logC1⟩)) ∧
    print_image imgC1 3 10 1 ⟨[], [], []⟩
      = some (.err .attributeError, ⟨[], [], [to_bytes ⟨33, [3]⟩]⟩) := by
  constructor
  · intro b1 b2 b3 b4 b5 b6
    rw [print_image]
    rw [show set_label_density 3 (scenC1 b1 b2 b3 b4 b5 b6)
        = some (.ok (decide (b1 ≠ 0)),
          ⟨[to_bytes ⟨51, [b2]⟩, to_bytes ⟨2, [b3]⟩, to_bytes ⟨4, [b4]⟩,
            to_bytes ⟨20, [b5]⟩, to_bytes ⟨228, [b6]⟩, to_bytes ⟨244, [1]⟩],
            [], [] ++ [to_bytes ⟨33, [3]⟩]⟩) from by
      rw [set_label_density, if_pos (by norm_num)]
      exact stepBool_first_round 33 16 49 b1 [3] [] _ [] rfl
        (by norm_num) (by norm_num)]
    dsimp only [andThen]
    rw [show ∀ cs log, set_label_type 1 (⟨to_bytes ⟨51, [b2]⟩ :: cs, [],
        log⟩ : TState) = some (.ok (decide (b2 ≠ 0)),
          ⟨cs, [], log ++ [to_bytes ⟨35, [1]⟩]⟩) from fun cs log => by
      rw [set_label_type, if_pos (by norm_num)]
      exact stepBool_first_round 35 16 51 b2 [1] [] _ _ rfl
        (by norm_num) (by norm_num)]
    dsimp only [andThen]
    rw [show ∀ cs log, start_print (⟨to_bytes ⟨2, [b3]⟩ :: cs, [],
        log⟩ : TState) = some (.ok (decide (b3 ≠ 0)),
          ⟨cs, [], log ++ [to_bytes ⟨1, [1]⟩]⟩) from fun cs log =>
      stepBool_first_round 1 1 2 b3 [1] [] _ _ rfl
        (by norm_num) (by norm_num)]
    dsimp only [andThen]
    rw [show ∀ cs log, start_page_print (⟨to_bytes ⟨4, [b4]⟩ :: cs, [],
        log⟩ : TState) = some (.ok (decide (b4 ≠ 0)),
          ⟨cs, [], log ++ [to_bytes ⟨3, [1]⟩]⟩) from fun cs log =>
      stepBool_first_round 3 1 4 b4 [1] [] _ _ rfl
        (by norm_num) (by norm_num)]
    dsimp only [andThen]
    rw [show ∀ cs log, set_dimension imgC1.height imgC1.width
        (⟨to_bytes ⟨20, [b5]⟩ :: cs, [], log⟩ : TState)
        = some (.ok (decide (b5 ≠ 0)),
          ⟨cs, [], log ++ [to_bytes ⟨19, pack16 imgC1.height
            ++ pack16 imgC1.width⟩]⟩) from fun cs log =>
      stepBool_first_round 19 1 20 b5 _ [] _ _ rfl
        (by norm_num) (by norm_num)]
    dsimp only [andThen]
    rw [show ∀ cs log, end_page_print (⟨to_bytes ⟨228, [b6]⟩ :: cs, [],
        log⟩ : TState) = some (.ok (decide (b6 ≠ 0)),
          ⟨cs, [], log ++ [to_bytes ⟨227, [1]⟩]⟩) from fun cs log =>
      stepBool_first_round 227 1 228 b6 [1] [] _ _ rfl
        (by norm_num) (by norm_num)]
    dsimp only [andThen]
    rw [printImageLoop]
    rw [show ∀ cs log, end_print (⟨to_bytes ⟨244, [1]⟩ :: cs, [],
        log⟩ : TState) = some (.ok true,
          ⟨cs, [], log ++ [to_bytes ⟨243, [1]⟩]⟩) from fun cs log =>
      stepBool_first_round 243 1 244 1 [1] [] _ _ rfl
        (by norm_num) (by norm_num)]
    decide
  · decide

end Niimprint
